import Mathlib

/-!
Verification of the LocalFinServer financial-period reconciliation pipeline
(`src/local_fin_server.py`, script `run_v17` and its fetch helpers), as a
shallow embedding in Lean 4.

Modelling conventions:
* Python floats are embedded as `FVal`: a rational (`FVal.num q`) for an
  ordinary finite float, or `FVal.nan` for the IEEE not-a-number value
  (which is truthy in Python and absorbs under arithmetic).
* Calendar dates are embedded as values on a linear day scale (`Int`,
  days since an arbitrary epoch); `datetime` comparison and
  `timedelta(days=n)` act on that scale.  Where the code reads the
  `.month` or `.year` field of a parsed date, the embedding carries those
  fields alongside (`CalDate`).
* Python dicts of metric values are embedded as association lists with
  first-match lookup and in-place update, matching dict semantics.
* The sqlite store is embedded as the list of inserted rows; the
  `SELECT id ... WHERE ticker=? AND report_period=? AND report_type=?`
  membership probe and the `INSERT` append are modelled directly.
-/

set_option maxHeartbeats 1000000

namespace LocalFinServer

/-- A numeric value as handled by the Python pipeline: an ordinary finite
float, modelled as a rational, or the IEEE not-a-number value `nan`. -/
inductive FVal where
  | num (q : ℚ)
  | nan
deriving DecidableEq

/-- Python truthiness of a float: `0.0` is falsy; every other float,
including `nan`, is truthy.  This is the test used by `if price and shares:`
(local_fin_server.py line 325). -/
def truthy : FVal → Bool
  | FVal.num q => decide (q ≠ 0)
  | FVal.nan => true

/-- Python float multiplication on embedded values: `nan` absorbs. -/
def fmul : FVal → FVal → FVal
  | FVal.num a, FVal.num b => FVal.num (a * b)
  | _, _ => FVal.nan

/-- Division by `1e9`, as in `mkt_cap / 1e9` (local_fin_server.py line 335). -/
def fdivB : FVal → FVal
  | FVal.num a => FVal.num (a / 1000000000)
  | FVal.nan => FVal.nan

/-- `report_type` of a statement row: the two values `'Annual'` and
`'Quarterly'` used throughout `local_fin_server.py`. -/
inductive RType where
  | Annual
  | Quarterly
deriving DecidableEq

/-- A parsed calendar date (`datetime.strptime(date_str, "%Y-%m-%d")`):
`days` is its position on the linear day scale used for comparison and
`timedelta` arithmetic; `year` and `month` mirror the `.year` / `.month`
fields read by the code. -/
structure CalDate where
  year : Int
  month : Nat
  days : Int
deriving DecidableEq

/-- First-match lookup in an association list, the embedding of
`dict.get(key)` returning `None` when the key is absent. -/
def getVal {α : Type} : List (String × α) → String → Option α
  | [], _ => none
  | (k, v) :: rest, key => if k = key then some v else getVal rest key

/-- `dict.get(key, default)`. -/
def getD (m : List (String × FVal)) (k : String) (d : FVal) : FVal :=
  match getVal m k with
  | some v => v
  | none => d

/-- Python dict assignment `d[k] = v`: replaces the value at an existing
key in place, otherwise appends the new pair at the end. -/
def setKey {α : Type} : List (String × α) → String → α → List (String × α)
  | [], k, v => [(k, v)]
  | (k1, v1) :: rest, k, v =>
      if k1 = k then (k, v) :: rest else (k1, v1) :: setKey rest k v

/-- The `SA_MAP` field-alias table of `local_fin_server.py` lines 33-41, in
its Python dict insertion order. -/
def SA_MAP : List (String × String) :=
  [("Revenue", "Total Revenue"), ("revenue", "Total Revenue"),
   ("Net Income", "Net Income"), ("netIncome", "Net Income"),
   ("Gross Profit", "Gross Profit"), ("grossProfit", "Gross Profit"),
   ("Operating Income", "Operating Income"), ("opIncome", "Operating Income"),
   ("EBITDA", "EBITDA"), ("ebitda", "EBITDA"),
   ("Shares Outstanding (Basic)", "Ordinary Shares Number"),
   ("shares", "Ordinary Shares Number"),
   ("EPS (Basic)", "Basic EPS"), ("eps", "Basic EPS")]

/-- The `final_data` construction of `local_fin_server.py` lines 125-130:
iterate `SA_MAP` in order; for each alias present and non-null in the raw
item, assign `final_data[std_k] = float(val)`.  Raw values are already
numeric, so `float` is the identity on them; a raw value of `none` models
a key that is absent or null in the scraped item. -/
def buildFinalData (item : List (String × Option FVal)) : List (String × FVal) :=
  SA_MAP.foldl
    (fun acc p =>
      match getVal item p.1 with
      | some (some v) => setKey acc p.2 v
      | _ => acc)
    []

/-- The period-label computation of `local_fin_server.py` lines 133-134 and
214-218: `q_num = (r_date.month - 1) // 3 + 1`, label `"FY"` for Annual
reports and `"Q{q_num}"` otherwise. -/
def periodLabel (rty : RType) (month : Nat) : String :=
  if rty = RType.Annual then "FY" else "Q" ++ toString ((month - 1) / 3 + 1)

/-- One raw item of the scraped `__NEXT_DATA__` payload: the optional
`'date'` field and the remaining metric fields as read by `item.get`. -/
structure SARow where
  date : Option CalDate
  fields : List (String × Option FVal)
deriving DecidableEq

/-- One element of the `processed_data` / `results` lists handed to the main
loop: the dict literal built at `local_fin_server.py` lines 136-142 and
220-226. -/
structure Item where
  report_period : Int
  report_type : RType
  period_label : String
  shares : FVal
  data : List (String × FVal)
deriving DecidableEq

/-- The per-report-type row-processing loop of `fetch_data_stockanalysis`
(`local_fin_server.py` lines 119-142): skip items without a date, skip
items whose date lies strictly in the future of `now`
(`if r_date > datetime.now(): continue`), build `final_data` through
`SA_MAP`, read the share count, and label the period. -/
def fetch_data_stockanalysis (now : Int) (rty : RType) (rows : List SARow) :
    List Item :=
  rows.filterMap fun it =>
    match it.date with
    | none => none
    | some d =>
        if d.days > now then none
        else
          let final_data := buildFinalData it.fields
          some { report_period := d.days, report_type := rty,
                 period_label := periodLabel rty d.month,
                 shares := getD final_data "Ordinary Shares Number" (FVal.num 0),
                 data := final_data }

/-- Modelled from the spec (§4.1, steps 2-3), not from the code: the claimed
fiscal-quarter formula
`((((month - fy_end_month + 12) mod 12, 0 replaced by 12) - 1) div 3) + 1`.
No such computation exists in `src/`; this definition exists only to compare
the claimed formula with what the code computes. -/
def specFiscalQuarter (month fyEnd : Nat) : Nat :=
  let off := (month + 12 - fyEnd) % 12
  let off := if off = 0 then 12 else off
  (off - 1) / 3 + 1

/-- Modelled from the spec (§4.1, step 1), not from the code: the claimed
fiscal-year rule (calendar year, plus one when the calendar month exceeds
the fiscal-year-end month).  No such computation exists in `src/`. -/
def specFiscalYear (year : Int) (month fyEnd : Nat) : Int :=
  if month > fyEnd then year + 1 else year

/-- The candidate-scanning loop of `run_v17` (`local_fin_server.py` lines
296-304): starting from `best_ann_date = None`, `min_diff = 999`, take each
known announcement date `ad`, compute `diff = (ad - r_dt).days`, and, when
`10 <= diff <= 100` and `diff < min_diff`, record `ad` as the new best. -/
def bestAnn (rp : Int) : List Int → Option Int × Int → Option Int × Int
  | [], st => st
  | ad :: rest, (best, minDiff) =>
      let diff := ad - rp
      if 10 ≤ diff ∧ diff ≤ 100 ∧ diff < minDiff then
        bestAnn rp rest (some ad, diff)
      else
        bestAnn rp rest (best, minDiff)

/-- The estimation offsets of `local_fin_server.py` line 310:
`days = 60 if report_type == 'Annual' else 35`. -/
def estDays : RType → Int
  | RType.Annual => 60
  | RType.Quarterly => 35

/-- The announcement-date resolution of `run_v17` (lines 295-312), before
the final clamp to now: the best matching calendar date when one exists,
otherwise `period_end + 60` days (Annual) or `+ 35` days (Quarterly). -/
def resolveAnn (rp : Int) (rt : RType) (cands : List Int) : Int :=
  match (bestAnn rp cands (none, 999)).1 with
  | some ad => ad
  | none => rp + estDays rt

/-- The share-count chain of `fetch_data_yfinance_backup`
(`local_fin_server.py` lines 210-212):
`shares = final_data.get('Ordinary Shares Number', 0)`,
falling back on `final_data.get('Share Issued', 0)` when falsy, and on the
`sharesOutstanding` snapshot from `tick.info` when still falsy. -/
def resolveSharesYf (final_data : List (String × FVal)) (infoShares : FVal) :
    FVal :=
  let s1 := getD final_data "Ordinary Shares Number" (FVal.num 0)
  let s2 := if truthy s1 then s1 else getD final_data "Share Issued" (FVal.num 0)
  if truthy s2 then s2 else infoShares

/-- Modelled from the spec (§4.4, tier 2), not from the code: the claimed
nearest-neighbour lookup in a historical share-count series, ties broken
toward the earlier point.  No historical share series is consulted anywhere
in `src/`; this definition exists only to compare the claimed tier with
what the code computes. -/
def specNearestSharePoint (series : List (Int × FVal)) (announce : Int) :
    Option FVal :=
  let best := series.foldl
    (fun acc p =>
      match acc with
      | none => some p
      | some q =>
          if (p.1 - announce).natAbs < (q.1 - announce).natAbs then some p
          else if (p.1 - announce).natAbs = (q.1 - announce).natAbs ∧ p.1 < q.1
          then some p
          else some q)
    none
  match best with
  | some p => some p.2
  | none => none

/-- Column names of a statement table row (`df.columns`). -/
def colNames {α : Type} (cols : List (String × α)) : List String :=
  cols.map Prod.fst

/-- Rename the columns whose name lies in the overlap by appending a
suffix, as pandas `DataFrame.join` does to overlapping column labels. -/
def suffixIfOverlap {α : Type} (ov : List String) (suf : String)
    (cols : List (String × α)) : List (String × α) :=
  cols.map fun p => (if p.1 ∈ ov then p.1 ++ suf else p.1, p.2)

/-- One row of `left.join(right, lsuffix, rsuffix)` at a date present in
both frames: overlapping column labels receive the respective suffixes and
both columns are kept side by side (pandas keeps an unsuffixed label
unchanged when its suffix is the empty string). -/
def joinCols {α : Type} (l r : List (String × α)) (lsuf rsuf : String) :
    List (String × α) :=
  let ov := (colNames l).filter fun n => n ∈ colNames r
  suffixIfOverlap ov lsuf l ++ suffixIfOverlap ov rsuf r

/-- `full.loc[:, ~full.columns.duplicated()]` (line 197): keep the first
column bearing each label, drop later duplicates. -/
def dropDupCols {α : Type} : List (String × α) → List String → List (String × α)
  | [], _ => []
  | (n, v) :: rest, seen =>
      if n ∈ seen then dropDupCols rest seen
      else (n, v) :: dropDupCols rest (n :: seen)

/-- The statement-table merge of `fetch_data_yfinance_backup`
(`local_fin_server.py` lines 196-197) at one date present in all three
frames: `inc.join(bal, lsuffix='_i', rsuffix='_b').join(cf, rsuffix='_c')`
followed by dropping duplicated column labels (first kept). -/
def mergeYfRow (inc bal cf : List (String × FVal)) : List (String × FVal) :=
  dropDupCols (joinCols (joinCols inc bal "_i" "_b") cf "" "_c") []

/-- Rendering of a single numeric value by
`json.dumps(..., cls=NpEncoder)` at `local_fin_server.py` line 327.
`NpEncoder` (lines 43-48) only converts numpy scalars and arrays to native
Python values; CPython's serializer then renders floats itself and, with
its default `allow_nan=True`, renders the not-a-number float as the bare
literal token `NaN`.  The decimal rendering of finite values is abstracted
by `toString`. -/
def jsonNumToken : FVal → String
  | FVal.num q => toString q
  | FVal.nan => "NaN"

/-- One `"key": value` member of the serialized object, with CPython's
default separators. -/
def jsonEntry (kv : String × FVal) : String :=
  "\"" ++ kv.1 ++ "\": " ++ jsonNumToken kv.2

/-- Comma-join of the serialized members. -/
def joinComma : List String → String
  | [] => ""
  | [s] => s
  | s :: rest => s ++ ", " ++ joinComma rest

/-- `json.dumps(item['data'], cls=NpEncoder)` (line 327) on a metric
mapping. -/
def json_dumps (data : List (String × FVal)) : String :=
  "\x7b" ++ joinComma (data.map jsonEntry) ++ "\x7d"

/-- The canonical persisted row of the `historical_financials` table
(columns of the `INSERT` at `local_fin_server.py` lines 329-335; the
autoincrement `id` and `updated_at` timestamp are omitted as they carry no
reconciliation content). -/
structure FinRecord where
  ticker : String
  announce_date : Int
  report_period : Int
  period_label : String
  report_type : RType
  adj_close_price : FVal
  shares_outstanding : FVal
  market_cap_billions : FVal
  financials_json : String
deriving DecidableEq

/-- The dedup key probed by
`SELECT id FROM historical_financials WHERE ticker=? AND report_period=? AND report_type=?`
(lines 290-291). -/
def recKey (r : FinRecord) : String × Int × RType :=
  (r.ticker, r.report_period, r.report_type)

/-- Membership of a key in the store (the `exists` probe of line 290;
inserts on the same connection are visible to later probes of the same
run). -/
def keyInDb (db : List FinRecord) (k : String × Int × RType) : Bool :=
  db.any fun r => decide (recKey r = k)

/-- The final clamp of `run_v17` (lines 314-315): an announce date after
now is replaced by now. -/
def clampNow (now d : Int) : Int := if d > now then now else d

/-- The clamped announce date the main loop computes for one item
(lines 295-315). -/
def annOf (now : Int) (known : List Int) (item : Item) : Int :=
  clampNow now (resolveAnn item.report_period item.report_type known)

/-- The share fallback of `run_v17` (lines 319-323):
`if (not shares or shares == 0) and price:` replace the item's share count
with the `sharesOutstanding` snapshot.  For a float `shares` the Python
condition `not shares or shares == 0` holds exactly when `shares == 0.0`
(`nan` is truthy and compares unequal to 0), and `and price` is the
truthiness of the fetched price. -/
def sharesOf (info : FVal) (item : Item) (price : FVal) : FVal :=
  if item.shares = FVal.num 0 ∧ truthy price = true then info else item.shares

/-- The row inserted at `local_fin_server.py` lines 329-335 for one item. -/
def mkRecord (t : String) (now : Int) (known : List Int) (info : FVal)
    (item : Item) (price : FVal) : FinRecord :=
  { ticker := t,
    announce_date := annOf now known item,
    report_period := item.report_period,
    period_label := item.period_label,
    report_type := item.report_type,
    adj_close_price := price,
    shares_outstanding := sharesOf info item price,
    market_cap_billions := fdivB (fmul price (sharesOf info item price)),
    financials_json := json_dumps item.data }

/-- The body of the `for item in fin_data:` loop of `run_v17`
(`local_fin_server.py` lines 287-335): skip when the (ticker,
report_period, report_type) key is already stored; otherwise resolve the
announce date, clamp it, fetch the price at it (`priceFn` embeds
`get_adj_close_price`, returning `none` on failure), apply the share
snapshot fallback, and insert exactly when `price and shares` is truthy. -/
def processItem (t : String) (now : Int) (known : List Int)
    (priceFn : Int → Option FVal) (info : FVal) (db : List FinRecord)
    (item : Item) : List FinRecord :=
  if keyInDb db (t, item.report_period, item.report_type) then db
  else
    match priceFn (annOf now known item) with
    | none => db
    | some price =>
        if truthy price && truthy (sharesOf info item price) then
          db ++ [mkRecord t now known info item price]
        else db

/-- The full per-ticker loop of `run_v17` over its (already sorted) item
list, threading the store. -/
def run_v17 (t : String) (now : Int) (known : List Int)
    (priceFn : Int → Option FVal) (info : FVal) :
    List FinRecord → List Item → List FinRecord
  | db, [] => db
  | db, item :: rest =>
      run_v17 t now known priceFn info
        (processItem t now known priceFn info db item) rest

/-- Whether the loop body would insert a row for this item when its key is
not yet stored: the price fetched at the clamped announce date and the
resolved share count are both truthy. -/
def eligible (now : Int) (known : List Int) (priceFn : Int → Option FVal)
    (info : FVal) (item : Item) : Bool :=
  match priceFn (annOf now known item) with
  | none => false
  | some price => truthy price && truthy (sharesOf info item price)

/-- The invariant every newly inserted row satisfies: both resolved values
passed the truthiness guard, the stored market cap is exactly
`price * shares / 1e9`, and the stored announce date is clamped to now. -/
def GoodRec (now : Int) (r : FinRecord) : Prop :=
  truthy r.adj_close_price = true
  ∧ truthy r.shares_outstanding = true
  ∧ r.market_cap_billions = fdivB (fmul r.adj_close_price r.shares_outstanding)
  ∧ r.announce_date ≤ now

/-- A one-item input whose record is persisted: period end at day 0,
estimated announce date day 35, price 100, statement share count 4. -/
def sampleItem : Item :=
  { report_period := 0, report_type := RType.Quarterly, period_label := "Q1",
    shares := FVal.num 4, data := [] }

/-- The price collaborator for the sample input: adjusted close 100 at
every date. -/
def samplePrice : Int → Option FVal := fun _ => some (FVal.num 100)

/-- The row `run_v17` persists for `sampleItem`. -/
def sampleRec : FinRecord :=
  mkRecord "T" 1000 [] (FVal.num 0) sampleItem (FVal.num 100)

/-- A scraped row with period end at day 5 (month 2 of 2020), in the past
of the sample processing time. -/
def sampleRow : SARow :=
  { date := some { year := 2020, month := 2, days := 5 }, fields := [] }

/-- The item `fetch_data_stockanalysis` emits for `sampleRow`. -/
def sampleFetched : Item :=
  { report_period := 5, report_type := RType.Quarterly, period_label := "Q1",
    shares := FVal.num 0, data := [] }

/-- C1, counterexample.  The code labels a Quarterly report ending
2025-10-31 (day 20392 on the linear scale) as `"Q4"` from the calendar
month alone, while the claim demands the fiscal pair (2026, "Q3") for
`fy_end_month = 1`; indeed the claimed spec formula yields quarter 3 and
year 2026 there, so the code disagrees with the claim at this input (and
produces no fiscal year at all). -/
theorem C1_fiscal_counterexample :
    (fetch_data_stockanalysis 30000 RType.Quarterly
        [{ date := some { year := 2025, month := 10, days := 20392 },
           fields := [] }]).map (fun it => it.period_label) = ["Q4"]
    ∧ ("Q4" : String) ≠ "Q3"
    ∧ specFiscalQuarter 10 1 = 3
    ∧ specFiscalYear 2025 10 1 = 2026 := by
  refine ⟨by decide, by decide, by decide, by decide⟩

/-- C1, amended.  The code computes the period label from the calendar
month alone: quarter `(month - 1) / 3 + 1`, overridden to `"FY"` exactly
when the report type is Annual; it consults no fiscal-year-end month and
emits no fiscal year.  This coincides with the claimed formula precisely
in the degenerate case `fiscal_year_end_month = 12`, where the claimed
fiscal year equals the calendar year. -/
theorem C1_fiscal_amended (m : Nat) (h1 : 1 ≤ m) (h2 : m ≤ 12) (rty : RType)
    (y : Int) :
    periodLabel rty m =
      (if rty = RType.Annual then "FY"
       else "Q" ++ toString (specFiscalQuarter m 12))
    ∧ specFiscalYear y m 12 = y := by
  constructor
  · cases rty with
    | Annual => rfl
    | Quarterly =>
        interval_cases m <;> decide
  · have hm : ¬ (m > 12) := by omega
    simp [specFiscalYear, hm]

/-- C1, witness for the amended theorem at month 10 (the claim's canonical
October month) and year 2025. -/
theorem C1_fiscal_amended_witness :
    periodLabel RType.Quarterly 10 =
      (if RType.Quarterly = RType.Annual then "FY"
       else "Q" ++ toString (specFiscalQuarter 10 12))
    ∧ specFiscalYear 2025 10 12 = 2025 :=
  C1_fiscal_amended 10 (by decide) (by decide) RType.Quarterly 2025

theorem bestAnn_none_eq (rp : Int) (cands : List Int) (st : Option Int × Int)
    (h : (bestAnn rp cands st).1 = none) :
    bestAnn rp cands st = st
    ∧ ∀ c ∈ cands, ¬ (10 ≤ c - rp ∧ c - rp ≤ 100 ∧ c - rp < st.2) := by
  induction cands generalizing st with
  | nil => exact ⟨rfl, by simp⟩
  | cons ad rest ih =>
      obtain ⟨best, minDiff⟩ := st
      by_cases hc : 10 ≤ ad - rp ∧ ad - rp ≤ 100 ∧ ad - rp < minDiff
      · exfalso
        rw [bestAnn, if_pos hc] at h
        have := (ih _ h).1
        rw [this] at h
        simp at h
      · rw [bestAnn, if_neg hc] at h ⊢
        obtain ⟨h1, h2⟩ := ih _ h
        refine ⟨h1, ?_⟩
        intro c hm
        rcases List.mem_cons.mp hm with hm | hm
        · subst hm
          exact hc
        · exact h2 c hm

theorem bestAnn_mem (rp : Int) (cands : List Int) (st : Option Int × Int)
    (b : Int) (h : (bestAnn rp cands st).1 = some b) :
    st.1 = some b ∨ b ∈ cands := by
  induction cands generalizing st with
  | nil => exact Or.inl h
  | cons ad rest ih =>
      obtain ⟨best, minDiff⟩ := st
      by_cases hc : 10 ≤ ad - rp ∧ ad - rp ≤ 100 ∧ ad - rp < minDiff
      · rw [bestAnn, if_pos hc] at h
        rcases ih _ h with h1 | h1
        · simp at h1
          simp [h1]
        · simp [h1]
      · rw [bestAnn, if_neg hc] at h
        rcases ih _ h with h1 | h1
        · exact Or.inl h1
        · simp [h1]

theorem bestAnn_inv (rp : Int) (cands : List Int) (st : Option Int × Int)
    (hinv : ∀ b, st.1 = some b → (10 ≤ b - rp ∧ b - rp ≤ 100) ∧ st.2 = b - rp) :
    ∀ b, (bestAnn rp cands st).1 = some b →
      (10 ≤ b - rp ∧ b - rp ≤ 100) ∧ (bestAnn rp cands st).2 = b - rp := by
  induction cands generalizing st with
  | nil => exact hinv
  | cons ad rest ih =>
      obtain ⟨best, minDiff⟩ := st
      by_cases hc : 10 ≤ ad - rp ∧ ad - rp ≤ 100 ∧ ad - rp < minDiff
      · rw [bestAnn, if_pos hc]
        refine ih _ ?_
        intro b hb
        simp at hb
        subst hb
        exact ⟨⟨hc.1, hc.2.1⟩, rfl⟩
      · rw [bestAnn, if_neg hc]
        exact ih _ hinv

theorem bestAnn_snd_le (rp : Int) (cands : List Int) (st : Option Int × Int) :
    (bestAnn rp cands st).2 ≤ st.2 := by
  induction cands generalizing st with
  | nil => exact le_refl _
  | cons ad rest ih =>
      obtain ⟨best, minDiff⟩ := st
      by_cases hc : 10 ≤ ad - rp ∧ ad - rp ≤ 100 ∧ ad - rp < minDiff
      · rw [bestAnn, if_pos hc]
        exact le_trans (ih _) (le_of_lt hc.2.2)
      · rw [bestAnn, if_neg hc]
        exact ih _

theorem bestAnn_min (rp : Int) (cands : List Int) (st : Option Int × Int) :
    ∀ c ∈ cands, 10 ≤ c - rp → c - rp ≤ 100 →
      (bestAnn rp cands st).2 ≤ c - rp := by
  induction cands generalizing st with
  | nil => simp
  | cons ad rest ih =>
      obtain ⟨best, minDiff⟩ := st
      intro c hm h1 h2
      rcases List.mem_cons.mp hm with hm | hm
      · subst hm
        by_cases hc : 10 ≤ c - rp ∧ c - rp ≤ 100 ∧ c - rp < minDiff
        · rw [bestAnn, if_pos hc]
          exact bestAnn_snd_le rp rest _
        · rw [bestAnn, if_neg hc]
          have : minDiff ≤ c - rp := by
            by_contra hlt
            exact hc ⟨h1, h2, by omega⟩
          exact le_trans (bestAnn_snd_le rp rest _) this
      · by_cases hc : 10 ≤ ad - rp ∧ ad - rp ≤ 100 ∧ ad - rp < minDiff
        · rw [bestAnn, if_pos hc]
          exact ih _ c hm h1 h2
        · rw [bestAnn, if_neg hc]
          exact ih _ c hm h1 h2

/-- C2.  The announcement-date resolver returns the candidate whose offset
from the period end is the smallest value in the closed window `[10, 100]`
days; when no candidate offset lies in the window it returns
`period_end + 60` days for Annual reports and `period_end + 35` days for
Quarterly reports. -/
theorem C2_announce_resolution (rp : Int) (rt : RType) (cands : List Int) :
    ((∀ c ∈ cands, ¬ (10 ≤ c - rp ∧ c - rp ≤ 100)) →
        resolveAnn rp rt cands = rp + estDays rt)
    ∧ (∀ c ∈ cands, 10 ≤ c - rp → c - rp ≤ 100 →
        resolveAnn rp rt cands ∈ cands
        ∧ 10 ≤ resolveAnn rp rt cands - rp
        ∧ resolveAnn rp rt cands - rp ≤ 100
        ∧ resolveAnn rp rt cands - rp ≤ c - rp) := by
  constructor
  · intro hnone
    unfold resolveAnn
    cases hb : (bestAnn rp cands (none, 999)).1 with
    | none => rfl
    | some b =>
        exfalso
        have hq := bestAnn_inv rp cands (none, 999) (by simp) b hb
        rcases bestAnn_mem rp cands (none, 999) b hb with h1 | h1
        · simp at h1
        · exact hnone b h1 hq.1
  · intro c hm h1 h2
    unfold resolveAnn
    cases hb : (bestAnn rp cands (none, 999)).1 with
    | none =>
        exfalso
        have := (bestAnn_none_eq rp cands (none, 999) hb).2 c hm
        exact this ⟨h1, h2, by omega⟩
    | some b =>
        have hq := bestAnn_inv rp cands (none, 999) (by simp) b hb
        rcases bestAnn_mem rp cands (none, 999) b hb with hmem | hmem
        · simp at hmem
        · refine ⟨hmem, hq.1.1, hq.1.2, ?_⟩
          have := bestAnn_min rp cands (none, 999) c hm h1 h2
          rw [hq.2] at this
          exact this

/-- C2, witness at the spec's worked example (offsets 15, 93 and 5 from the
period end; 5 is below the window): the resolver picks the candidate with
offset 15, and with no candidates an Annual report is estimated at
`period_end + 60`. -/
theorem C2_announce_resolution_witness :
    resolveAnn 0 RType.Quarterly [15, 93, 5] ∈ ([15, 93, 5] : List Int)
    ∧ 10 ≤ resolveAnn 0 RType.Quarterly [15, 93, 5] - 0
    ∧ resolveAnn 0 RType.Quarterly [15, 93, 5] - 0 ≤ 100
    ∧ resolveAnn 0 RType.Quarterly [15, 93, 5] - 0 ≤ 15 - 0 :=
  (C2_announce_resolution 0 RType.Quarterly [15, 93, 5]).2 15 (by decide)
    (by decide) (by decide)

/-- C3, counterexample.  A record whose statement fields are all
zero/absent, with a historical point of value 500 at distance 5 from the
announce date and a snapshot of 700: the code resolves to the snapshot 700
(its chain never consults a historical series), while the claim demands the
tier-2 historical value 500. -/
theorem C3_shares_counterexample :
    resolveSharesYf [] (FVal.num 700) = FVal.num 700
    ∧ specNearestSharePoint [(5, FVal.num 500)] 10 = some (FVal.num 500)
    ∧ FVal.num 700 ≠ FVal.num 500
    ∧ sharesOf (FVal.num 700)
        { report_period := 0, report_type := RType.Quarterly,
          period_label := "Q1", shares := FVal.num 0, data := [] }
        (FVal.num 100) = FVal.num 700 := by
  refine ⟨by decide, by decide, by decide, by decide⟩

/-- C3, amended.  Share-count resolution tries the statement metric
`'Ordinary Shares Number'`, then the alias `'Share Issued'`, then the
current `sharesOutstanding` snapshot, first truthy value winning; there is
no historical time-series tier, so a record with falsy statement fields
resolves to the snapshot. -/
theorem C3_shares_amended (final_data : List (String × FVal)) (info : FVal) :
    (truthy (getD final_data "Ordinary Shares Number" (FVal.num 0)) = true →
        resolveSharesYf final_data info =
          getD final_data "Ordinary Shares Number" (FVal.num 0))
    ∧ (truthy (getD final_data "Ordinary Shares Number" (FVal.num 0)) = false →
        truthy (getD final_data "Share Issued" (FVal.num 0)) = true →
        resolveSharesYf final_data info =
          getD final_data "Share Issued" (FVal.num 0))
    ∧ (truthy (getD final_data "Ordinary Shares Number" (FVal.num 0)) = false →
        truthy (getD final_data "Share Issued" (FVal.num 0)) = false →
        resolveSharesYf final_data info = info) := by
  refine ⟨?_, ?_, ?_⟩ <;> intro h1 <;> simp [resolveSharesYf, h1]
  · intro h2
    simp [h2]
  · intro h2
    simp [h2]

/-- C3, witness for the amended theorem: `'Ordinary Shares Number'` absent,
`'Share Issued'` = 5, snapshot 9 — the alias value 5 wins. -/
theorem C3_shares_amended_witness :
    truthy (getD [("Share Issued", FVal.num 5)] "Ordinary Shares Number"
        (FVal.num 0)) = false
    ∧ truthy (getD [("Share Issued", FVal.num 5)] "Share Issued"
        (FVal.num 0)) = true
    ∧ resolveSharesYf [("Share Issued", FVal.num 5)] (FVal.num 9) =
        getD [("Share Issued", FVal.num 5)] "Share Issued" (FVal.num 0) :=
  ⟨by decide, by decide,
   (C3_shares_amended [("Share Issued", FVal.num 5)] (FVal.num 9)).2.1
     (by decide) (by decide)⟩

/-- C8, counterexample.  Income and balance tables both supplying metric
`"X"` (values 1 and 2): the merged row keeps both values under the suffixed
labels `X_i` and `X_b`; no value is stored under `"X"` at all, so the
later-processed table's value 2 does not overwrite the earlier one. -/
theorem C8_merge_counterexample :
    mergeYfRow [("X", FVal.num 1)] [("X", FVal.num 2)] []
      = [("X_i", FVal.num 1), ("X_b", FVal.num 2)]
    ∧ getVal (mergeYfRow [("X", FVal.num 1)] [("X", FVal.num 2)] []) "X"
        ≠ some (FVal.num 2) := by
  refine ⟨by decide, by decide⟩

theorem getVal_dropDupCols {α : Type} (cols : List (String × α))
    (seen : List String) (n : String) (h : n ∉ seen) :
    getVal (dropDupCols cols seen) n = getVal cols n := by
  induction cols generalizing seen with
  | nil => rfl
  | cons p rest ih =>
      obtain ⟨m, v⟩ := p
      by_cases hm : m ∈ seen
      · rw [dropDupCols, if_pos hm]
        have hne : m ≠ n := fun he => h (he ▸ hm)
        rw [ih seen h, getVal, if_neg hne]
      · rw [dropDupCols, if_neg hm]
        by_cases hmn : m = n
        · subst hmn
          rw [getVal, getVal, if_pos rfl, if_pos rfl]
        · rw [getVal, getVal, if_neg hmn, if_neg hmn]
          refine ih (m :: seen) ?_
          intro hc
          rcases List.mem_cons.mp hc with hc | hc
          · exact hmn hc.symm
          · exact h hc

theorem mem_colNames_suffixIfOverlap {α : Type} (ov : List String)
    (suf : String) (cols : List (String × α)) (n : String) :
    n ∈ colNames (suffixIfOverlap ov suf cols) ↔
      ∃ m ∈ colNames cols, (if m ∈ ov then m ++ suf else m) = n := by
  simp [colNames, suffixIfOverlap]

/-- C8, amended.  On a metric-name collision between the income and balance
tables the merged row keeps both values side by side under the suffixed
labels `name ++ "_i"` and `name ++ "_b"`, and keeps no column under the bare
colliding name; where two columns end up with an identical label, the
earlier-processed one wins (the lookup of any label in the deduplicated row
equals its first occurrence before deduplication), not the later. -/
theorem C8_merge_amended (l r : List (String × FVal)) (n : String)
    (hl : n ∈ colNames l) (hr : n ∈ colNames r)
    (hfresh : ∀ m : String, m ++ "_i" ≠ n ∧ m ++ "_b" ≠ n) :
    (n ++ "_i") ∈ colNames (joinCols l r "_i" "_b")
    ∧ (n ++ "_b") ∈ colNames (joinCols l r "_i" "_b")
    ∧ n ∉ colNames (joinCols l r "_i" "_b")
    ∧ ∀ (cols : List (String × FVal)) (k : String),
        getVal (dropDupCols cols []) k = getVal cols k := by
  have hov : n ∈ (colNames l).filter (fun n0 => n0 ∈ colNames r) := by
    simp [List.mem_filter, hl, hr]
  refine ⟨?_, ?_, ?_, ?_⟩
  · unfold joinCols
    rw [colNames, List.map_append, List.mem_append]
    left
    rw [← colNames, mem_colNames_suffixIfOverlap]
    exact ⟨n, hl, by rw [if_pos hov]⟩
  · unfold joinCols
    rw [colNames, List.map_append, List.mem_append]
    right
    rw [← colNames, mem_colNames_suffixIfOverlap]
    exact ⟨n, hr, by rw [if_pos hov]⟩
  · unfold joinCols
    rw [colNames, List.map_append, List.mem_append]
    rintro (hc | hc) <;>
      rw [← colNames, mem_colNames_suffixIfOverlap] at hc <;>
      obtain ⟨m, hm, he⟩ := hc
    · by_cases hmo : m ∈ (colNames l).filter (fun n0 => n0 ∈ colNames r)
      · rw [if_pos hmo] at he
        exact (hfresh m).1 he
      · rw [if_neg hmo] at he
        subst he
        exact hmo hov
    · by_cases hmo : m ∈ (colNames l).filter (fun n0 => n0 ∈ colNames r)
      · rw [if_pos hmo] at he
        exact (hfresh m).2 he
      · rw [if_neg hmo] at he
        subst he
        exact hmo hov
  · intro cols k
    exact getVal_dropDupCols cols [] k (by simp)

/-- C8, witness for the amended theorem at the colliding metric `"X"`. -/
theorem C8_merge_amended_witness :
    ("X" ++ "_i") ∈ colNames (joinCols [("X", FVal.num 1)] [("X", FVal.num 2)]
        "_i" "_b")
    ∧ ("X" ++ "_b") ∈ colNames (joinCols [("X", FVal.num 1)] [("X", FVal.num 2)]
        "_i" "_b")
    ∧ "X" ∉ colNames (joinCols [("X", FVal.num 1)] [("X", FVal.num 2)]
        "_i" "_b")
    ∧ ∀ (cols : List (String × FVal)) (k : String),
        getVal (dropDupCols cols []) k = getVal cols k :=
  C8_merge_amended [("X", FVal.num 1)] [("X", FVal.num 2)] "X" (by decide)
    (by decide)
    (fun m =>
      ⟨fun he => by
          have hlen := congrArg String.length he
          rw [String.length_append] at hlen
          have h1 : "_i".length = 2 := by decide
          have h2 : "X".length = 1 := by decide
          omega,
       fun he => by
          have hlen := congrArg String.length he
          rw [String.length_append] at hlen
          have h1 : "_b".length = 2 := by decide
          have h2 : "X".length = 1 := by decide
          omega⟩)

/-- C9, counterexample.  Serializing a merged-metrics mapping whose
`"Revenue"` value is not-a-number emits the literal token `NaN` in place of
the value, not a null marker. -/
theorem C9_serialization_counterexample :
    json_dumps [("Revenue", FVal.nan)] = "\x7b\"Revenue\": NaN\x7d"
    ∧ json_dumps [("Revenue", FVal.nan)] ≠ "\x7b\"Revenue\": null\x7d" := by
  refine ⟨by decide, by decide⟩

/-- C9, amended.  The serializer converts numpy scalar types to native ones
but maps a not-a-number metric value to the literal token `NaN`, never to a
null/absent marker: the serialized output of any mapping contains, for each
not-a-number entry, the member string `"key": NaN`. -/
theorem C9_serialization_amended (data : List (String × FVal)) (k : String)
    (h : (k, FVal.nan) ∈ data) :
    jsonEntry (k, FVal.nan) ∈ data.map jsonEntry
    ∧ jsonEntry (k, FVal.nan) = "\"" ++ k ++ "\": NaN"
    ∧ json_dumps data = "\x7b" ++ joinComma (data.map jsonEntry) ++ "\x7d" :=
  ⟨List.mem_map_of_mem jsonEntry h,
   by
     have hs : ("\": " ++ "NaN" : String) = "\": NaN" := by decide
     show "\"" ++ k ++ "\": " ++ "NaN" = "\"" ++ k ++ "\": NaN"
     rw [String.append_assoc, hs],
   rfl⟩

/-- C9, witness for the amended theorem at the one-entry mapping
`[("Revenue", nan)]`. -/
theorem C9_serialization_amended_witness :
    jsonEntry ("Revenue", FVal.nan) ∈
        [("Revenue", FVal.nan)].map jsonEntry
    ∧ jsonEntry ("Revenue", FVal.nan) = "\"" ++ "Revenue" ++ "\": NaN"
    ∧ json_dumps [("Revenue", FVal.nan)] =
        "\x7b" ++ joinComma ([("Revenue", FVal.nan)].map jsonEntry) ++ "\x7d" :=
  C9_serialization_amended [("Revenue", FVal.nan)] "Revenue" (by decide)

theorem keyInDb_append (db : List FinRecord) (x : FinRecord)
    (k : String × Int × RType) :
    keyInDb (db ++ [x]) k = (keyInDb db k || decide (recKey x = k)) := by
  simp [keyInDb]

theorem processItem_spec (t : String) (now : Int) (known : List Int)
    (priceFn : Int → Option FVal) (info : FVal) (db : List FinRecord)
    (item : Item) :
    (keyInDb db (t, item.report_period, item.report_type) = true
        ∧ processItem t now known priceFn info db item = db)
    ∨ (eligible now known priceFn info item = false
        ∧ processItem t now known priceFn info db item = db)
    ∨ (∃ price, priceFn (annOf now known item) = some price
        ∧ keyInDb db (t, item.report_period, item.report_type) = false
        ∧ (truthy price && truthy (sharesOf info item price)) = true
        ∧ processItem t now known priceFn info db item
            = db ++ [mkRecord t now known info item price]) := by
  unfold processItem
  split
  next hk => exact Or.inl ⟨hk, rfl⟩
  next hk =>
    rw [Bool.not_eq_true] at hk
    cases hp : priceFn (annOf now known item) with
    | none =>
        refine Or.inr (Or.inl ⟨?_, rfl⟩)
        simp [eligible, hp]
    | some price =>
        cases hg : truthy price && truthy (sharesOf info item price) with
        | false =>
            refine Or.inr (Or.inl ⟨?_, by simp [hg]⟩)
            simp [eligible, hp, hg]
        | true =>
            exact Or.inr (Or.inr ⟨price, rfl, hk, hg, by simp [hg]⟩)

theorem keyInDb_processItem_mono (t : String) (now : Int) (known : List Int)
    (priceFn : Int → Option FVal) (info : FVal) (db : List FinRecord)
    (item : Item) (k : String × Int × RType) (h : keyInDb db k = true) :
    keyInDb (processItem t now known priceFn info db item) k = true := by
  rcases processItem_spec t now known priceFn info db item with
    ⟨_, he⟩ | ⟨_, he⟩ | ⟨price, _, _, _, he⟩ <;> rw [he]
  · exact h
  · exact h
  · rw [keyInDb_append, h, Bool.true_or]

theorem keyInDb_processItem_self (t : String) (now : Int) (known : List Int)
    (priceFn : Int → Option FVal) (info : FVal) (db : List FinRecord)
    (item : Item) (h : eligible now known priceFn info item = true) :
    keyInDb (processItem t now known priceFn info db item)
      (t, item.report_period, item.report_type) = true := by
  rcases processItem_spec t now known priceFn info db item with
    ⟨hk, he⟩ | ⟨hef, _⟩ | ⟨price, _, _, _, he⟩
  · rw [he]; exact hk
  · rw [h] at hef; exact absurd hef (by simp)
  · rw [he, keyInDb_append]
    have : recKey (mkRecord t now known info item price)
        = (t, item.report_period, item.report_type) := rfl
    rw [this]
    simp

theorem run_keyIn_mono (t : String) (now : Int) (known : List Int)
    (priceFn : Int → Option FVal) (info : FVal) (db : List FinRecord)
    (items : List Item) (k : String × Int × RType) (h : keyInDb db k = true) :
    keyInDb (run_v17 t now known priceFn info db items) k = true := by
  induction items generalizing db with
  | nil => exact h
  | cons it rest ih =>
      exact ih _ (keyInDb_processItem_mono t now known priceFn info db it k h)

theorem run_handles (t : String) (now : Int) (known : List Int)
    (priceFn : Int → Option FVal) (info : FVal) (db : List FinRecord)
    (items : List Item) :
    ∀ item ∈ items, eligible now known priceFn info item = true →
      keyInDb (run_v17 t now known priceFn info db items)
        (t, item.report_period, item.report_type) = true := by
  induction items generalizing db with
  | nil => simp
  | cons it rest ih =>
      intro item hm he
      rcases List.mem_cons.mp hm with hm | hm
      · subst hm
        exact run_keyIn_mono t now known priceFn info _ rest _
          (keyInDb_processItem_self t now known priceFn info db item he)
      · exact ih _ item hm he

theorem run_noop (t : String) (now : Int) (known : List Int)
    (priceFn : Int → Option FVal) (info : FVal) (db : List FinRecord)
    (items : List Item)
    (h : ∀ item ∈ items, eligible now known priceFn info item = true →
      keyInDb db (t, item.report_period, item.report_type) = true) :
    run_v17 t now known priceFn info db items = db := by
  induction items with
  | nil => rfl
  | cons it rest ih =>
      have h1 : processItem t now known priceFn info db it = db := by
        rcases processItem_spec t now known priceFn info db it with
          ⟨_, he⟩ | ⟨_, he⟩ | ⟨price, hp, hk, hg, _⟩
        · exact he
        · exact he
        · exfalso
          have he : eligible now known priceFn info it = true := by
            simp [eligible, hp, hg]
          rw [h it (List.mem_cons_self it rest) he] at hk
          exact absurd hk (by simp)
      rw [run_v17, h1]
      exact ih (fun item hm he => h item (List.mem_cons_of_mem it hm) he)

/-- C4.  Re-running the reconciliation loop over the same items against the
store produced by a first run (which contains everything the first run
persisted) inserts nothing: the store is returned unchanged, every already
present (ticker, report_period, report_type) key being skipped. -/
theorem C4_reconcile_idempotent (t : String) (now : Int) (known : List Int)
    (priceFn : Int → Option FVal) (info : FVal) (db : List FinRecord)
    (items : List Item) :
    run_v17 t now known priceFn info
        (run_v17 t now known priceFn info db items) items
      = run_v17 t now known priceFn info db items :=
  run_noop t now known priceFn info _ items
    (fun item hm he => run_handles t now known priceFn info db items item hm he)

theorem keyInDb_false_forall (db : List FinRecord) (k : String × Int × RType)
    (h : keyInDb db k = false) : ∀ r ∈ db, recKey r ≠ k := by
  intro r hr
  simp only [keyInDb, List.any_eq_false, decide_eq_true_eq] at h
  exact h r hr

theorem nodup_processItem (t : String) (now : Int) (known : List Int)
    (priceFn : Int → Option FVal) (info : FVal) (db : List FinRecord)
    (item : Item) (h : (db.map recKey).Nodup) :
    ((processItem t now known priceFn info db item).map recKey).Nodup := by
  rcases processItem_spec t now known priceFn info db item with
    ⟨_, he⟩ | ⟨_, he⟩ | ⟨price, _, hk, _, he⟩ <;> rw [he]
  · exact h
  · exact h
  · rw [List.map_append]
    refine List.Nodup.append h (by simp) ?_
    intro a ha hb
    simp only [List.map_cons, List.map_nil, List.mem_singleton] at hb
    obtain ⟨r, hr, hra⟩ := List.mem_map.mp ha
    have : recKey (mkRecord t now known info item price)
        = (t, item.report_period, item.report_type) := rfl
    rw [this] at hb
    exact keyInDb_false_forall db _ hk r hr (by rw [hra, hb])

theorem nodup_countP_le_one {β : Type} [DecidableEq β] (L : List β)
    (h : L.Nodup) (b : β) : L.countP (fun x => decide (x = b)) ≤ 1 := by
  induction L with
  | nil => simp
  | cons a L ih =>
      rw [List.countP_cons]
      rcases List.nodup_cons.mp h with ⟨ha, hL⟩
      by_cases hab : a = b
      · subst hab
        have h0 : L.countP (fun x => decide (x = a)) = 0 := by
          rw [List.countP_eq_zero]
          intro x hx
          simp only [decide_eq_true_eq]
          intro he
          exact ha (he ▸ hx)
        simp [h0]
      · simp only [hab, decide_False, if_false, Nat.add_zero]
        exact ih hL

/-- C5.  The store keeps at most one persisted record per (ticker,
report_period, report_type): a run starting from a store with pairwise
distinct keys yields a store with pairwise distinct keys, and every key
matches at most one persisted record — a second insert attempt for a key
already present is skipped regardless of the other fields. -/
theorem C5_key_uniqueness (t : String) (now : Int) (known : List Int)
    (priceFn : Int → Option FVal) (info : FVal) (db : List FinRecord)
    (items : List Item) (h : (db.map recKey).Nodup) :
    ((run_v17 t now known priceFn info db items).map recKey).Nodup
    ∧ ∀ k, (run_v17 t now known priceFn info db items).countP
        (fun r => decide (recKey r = k)) ≤ 1 := by
  have hnd : ((run_v17 t now known priceFn info db items).map recKey).Nodup := by
    induction items generalizing db with
    | nil => exact h
    | cons it rest ih =>
        exact ih _ (nodup_processItem t now known priceFn info db it h)
  refine ⟨hnd, fun k => ?_⟩
  have hc := nodup_countP_le_one _ hnd k
  rw [List.countP_map] at hc
  exact hc

/-- C5, witness: starting from the empty store and two items sharing the
key ("T", 0, Quarterly) but differing in every other field, the resulting
store has pairwise distinct keys, and the contested key occurs at most
once. -/
theorem C5_key_uniqueness_witness :
    ((run_v17 "T" 1000 [] (fun _ => some (FVal.num 100)) (FVal.num 0) []
        [{ report_period := 0, report_type := RType.Quarterly,
           period_label := "Q1", shares := FVal.num 4, data := [] },
         { report_period := 0, report_type := RType.Quarterly,
           period_label := "Q1", shares := FVal.num 7, data := [] }]).map
        recKey).Nodup
    ∧ (run_v17 "T" 1000 [] (fun _ => some (FVal.num 100)) (FVal.num 0) []
        [{ report_period := 0, report_type := RType.Quarterly,
           period_label := "Q1", shares := FVal.num 4, data := [] },
         { report_period := 0, report_type := RType.Quarterly,
           period_label := "Q1", shares := FVal.num 7, data := [] }]).countP
        (fun r => decide (recKey r = ("T", 0, RType.Quarterly))) ≤ 1 :=
  ⟨(C5_key_uniqueness "T" 1000 [] (fun _ => some (FVal.num 100)) (FVal.num 0)
      [] _ (by simp)).1,
   (C5_key_uniqueness "T" 1000 [] (fun _ => some (FVal.num 100)) (FVal.num 0)
      [] _ (by simp)).2 ("T", 0, RType.Quarterly)⟩

theorem clampNow_le (now d : Int) : clampNow now d ≤ now := by
  unfold clampNow
  split <;> omega

theorem mem_processItem_good (t : String) (now : Int) (known : List Int)
    (priceFn : Int → Option FVal) (info : FVal) (db : List FinRecord)
    (item : Item) (r : FinRecord)
    (h : r ∈ processItem t now known priceFn info db item) :
    r ∈ db ∨ GoodRec now r := by
  rcases processItem_spec t now known priceFn info db item with
    ⟨_, he⟩ | ⟨_, he⟩ | ⟨price, _, _, hg, he⟩ <;> rw [he] at h
  · exact Or.inl h
  · exact Or.inl h
  · rcases List.mem_append.mp h with h | h
    · exact Or.inl h
    · right
      rcases List.mem_singleton.mp h with rfl
      rw [Bool.and_eq_true] at hg
      exact ⟨hg.1, hg.2, rfl, clampNow_le now _⟩

theorem mem_run_good (t : String) (now : Int) (known : List Int)
    (priceFn : Int → Option FVal) (info : FVal) (db : List FinRecord)
    (items : List Item) (r : FinRecord)
    (h : r ∈ run_v17 t now known priceFn info db items) :
    r ∈ db ∨ GoodRec now r := by
  induction items generalizing db with
  | nil => exact Or.inl h
  | cons it rest ih =>
      rcases ih _ h with h1 | h1
      · exact mem_processItem_good t now known priceFn info db it r h1
      · exact Or.inr h1

/-- C6, counterexample.  An item whose statement share count is the
not-a-number float (truthy in Python, so it passes both the snapshot
fallback test and the `if price and shares:` guard) is persisted, and its
stored market cap is not-a-number — the code checks truthiness, not
finiteness, so a record with a non-finite share count is not withheld and a
NaN market cap is persisted. -/
theorem C6_market_cap_counterexample :
    (run_v17 "T" 1000 [] (fun _ => some (FVal.num 100)) (FVal.num 0) []
        [{ report_period := 0, report_type := RType.Quarterly,
           period_label := "Q1", shares := FVal.nan, data := [] }]).map
      (fun r => r.market_cap_billions) = [FVal.nan] := by
  decide

/-- C6, amended.  A record is persisted only when its resolved price and
resolved share count are both non-null and truthy (non-zero); the persisted
`market_cap_billions` always equals `price * shares / 1e9`, and whenever
both inputs are finite numbers it is a finite non-zero number — but the
code performs no finiteness check, so a not-a-number input escapes the
guard (previous theorem) rather than being withheld. -/
theorem C6_market_cap_amended (t : String) (now : Int) (known : List Int)
    (priceFn : Int → Option FVal) (info : FVal) (db : List FinRecord)
    (items : List Item) (r : FinRecord)
    (hmem : r ∈ run_v17 t now known priceFn info db items) (hnew : r ∉ db) :
    truthy r.adj_close_price = true
    ∧ truthy r.shares_outstanding = true
    ∧ r.market_cap_billions = fdivB (fmul r.adj_close_price r.shares_outstanding)
    ∧ ∀ p s : ℚ, r.adj_close_price = FVal.num p →
        r.shares_outstanding = FVal.num s →
        r.market_cap_billions = FVal.num (p * s / 1000000000)
        ∧ p * s / 1000000000 ≠ 0 := by
  rcases mem_run_good t now known priceFn info db items r hmem with h | h
  · exact absurd h hnew
  · obtain ⟨h1, h2, h3, _⟩ := h
    refine ⟨h1, h2, h3, ?_⟩
    intro p s hp hs
    rw [hp, hs] at h3
    have hp0 : p ≠ 0 := by
      rw [hp] at h1
      simpa [truthy] using h1
    have hs0 : s ≠ 0 := by
      rw [hs] at h2
      simpa [truthy] using h2
    exact ⟨h3, div_ne_zero (mul_ne_zero hp0 hs0) (by norm_num)⟩

theorem sampleRun_eq :
    run_v17 "T" 1000 [] samplePrice (FVal.num 0) [] [sampleItem] =
      [sampleRec] := rfl

theorem sampleRec_mem :
    sampleRec ∈ run_v17 "T" 1000 [] samplePrice (FVal.num 0) [] [sampleItem] := by
  rw [sampleRun_eq]
  exact List.mem_singleton.mpr rfl

/-- C6, witness for the amended theorem at the sample input. -/
theorem C6_market_cap_amended_witness :
    truthy sampleRec.adj_close_price = true
    ∧ truthy sampleRec.shares_outstanding = true
    ∧ sampleRec.market_cap_billions =
        fdivB (fmul sampleRec.adj_close_price sampleRec.shares_outstanding) :=
  have h := C6_market_cap_amended "T" 1000 [] samplePrice (FVal.num 0) []
    [sampleItem] sampleRec sampleRec_mem (by decide)
  ⟨h.1, h.2.1, h.2.2.1⟩

/-- C7.  Every scraped statement row whose period-end date lies strictly in
the future of processing time is discarded (no emitted item carries a
future period end), and every persisted record's announce date is clamped
to processing time (no persisted announce date lies strictly after now);
both paths are total — a future date never aborts processing. -/
theorem C7_future_dates (now : Int) (rty : RType) (rows : List SARow)
    (t : String) (known : List Int) (priceFn : Int → Option FVal)
    (info : FVal) (db : List FinRecord) (items : List Item) (r : FinRecord)
    (hmem : r ∈ run_v17 t now known priceFn info db items) (hnew : r ∉ db) :
    (∀ it ∈ fetch_data_stockanalysis now rty rows, it.report_period ≤ now)
    ∧ r.announce_date ≤ now
    ∧ (∀ a : Int, a > now → clampNow now a = now)
    ∧ (∀ a : Int, a ≤ now → clampNow now a = a) := by
  refine ⟨?_, ?_, ?_, ?_⟩
  · intro it hit
    obtain ⟨row, _, hf⟩ := List.mem_filterMap.mp hit
    cases hd : row.date with
    | none =>
        rw [hd] at hf
        simp at hf
    | some d =>
        rw [hd] at hf
        by_cases hfut : d.days > now
        · simp only [if_pos hfut] at hf
          simp at hf
        · simp only [if_neg hfut, Option.some.injEq] at hf
          rw [← hf]
          exact le_of_not_lt hfut
  · rcases mem_run_good t now known priceFn info db items r hmem with h | h
    · exact absurd h hnew
    · exact h.2.2.2
  · intro a ha
    unfold clampNow
    rw [if_pos ha]
  · intro a ha
    unfold clampNow
    rw [if_neg (by omega)]

/-- C7, witness at the sample inputs: the fetched item's period end and the
persisted record's announce date both lie at or before now, a resolved date
of 2000 is clamped to now = 1000, and a resolved date of 35 is kept. -/
theorem C7_future_dates_witness :
    sampleFetched.report_period ≤ (1000 : Int)
    ∧ sampleRec.announce_date ≤ (1000 : Int)
    ∧ clampNow 1000 2000 = 1000
    ∧ clampNow 1000 35 = 35 :=
  have h := C7_future_dates 1000 RType.Quarterly [sampleRow] "T" []
    samplePrice (FVal.num 0) [] [sampleItem] sampleRec sampleRec_mem
    (by decide)
  ⟨h.1 sampleFetched (by decide), h.2.1, h.2.2.1 2000 (by decide),
   h.2.2.2 35 (by decide)⟩

/-- C10.  Every persisted record has a strictly non-zero price and a
strictly non-zero share count: eligibility is Python truthiness of both
values, so an exactly zero price or share count — though non-null — is
withheld, and zero never appears in either persisted column. -/
theorem C10_nonzero_columns (t : String) (now : Int) (known : List Int)
    (priceFn : Int → Option FVal) (info : FVal) (db : List FinRecord)
    (items : List Item) (r : FinRecord)
    (hmem : r ∈ run_v17 t now known priceFn info db items) (hnew : r ∉ db) :
    r.adj_close_price ≠ FVal.num 0 ∧ r.shares_outstanding ≠ FVal.num 0 := by
  rcases mem_run_good t now known priceFn info db items r hmem with h | h
  · exact absurd h hnew
  · obtain ⟨h1, h2, _, _⟩ := h
    constructor
    · intro he
      rw [he] at h1
      simp [truthy] at h1
    · intro he
      rw [he] at h2
      simp [truthy] at h2

/-- C10, witness at the sample input. -/
theorem C10_nonzero_columns_witness :
    sampleRec.adj_close_price ≠ FVal.num 0
    ∧ sampleRec.shares_outstanding ≠ FVal.num 0 :=
  C10_nonzero_columns "T" 1000 [] samplePrice (FVal.num 0) [] [sampleItem]
    sampleRec sampleRec_mem (by decide)

end LocalFinServer
